import Mathlib

/-!
Verification of the ECDSA affine-nonce analysis engine (`ECDSAAffineAttack`).

The development shallowly embeds the algorithmic core of the TypeScript
module: JavaScript `bigint` values become `Int` (arbitrary precision in both
worlds), and the JavaScript remainder operator `%` on `bigint` — which
truncates toward zero — becomes `Int.tmod`.  Fallible operations return
`Option`.  Sources of randomness (`generateRandomBigInt`) are supplied as
explicit arguments.  Wall-clock fields (`analysisDuration`) and the progress
callback, which are pure UI affordances, are omitted from the embedding.
-/

/-- The secp256k1 group order `n`, as a natural number (used as the `ZMod`
modulus in proofs). -/
def curveOrderN : Nat := 0xFFFFFFFFFFFFFFFFFFFFFFFFFFFFFFFEBAAEDCE6AF48A03BBFD25E8CD0364141

/-- Source constant `CURVE_ORDER`: the secp256k1 group order as a big
integer.  Every instance of the class sets `this.curveOrder` to this value. -/
def CURVE_ORDER : Int := 0xFFFFFFFFFFFFFFFFFFFFFFFFFFFFFFFEBAAEDCE6AF48A03BBFD25E8CD0364141

/-- Source helper `modulo(a, m) = ((a % m) + m) % m`.  JavaScript `%` on
`bigint` truncates toward zero, i.e. it is `Int.tmod`. -/
def modulo (a m : Int) : Int :=
  ((a.tmod m) + m).tmod m

/-- The `while (r !== 0n)` loop of the source's `modInverse` (extended
Euclidean algorithm).  The source mutates `[oldR, r]` and `[oldS, s]`; here
the four variables are parameters of the tail recursion.  `oldR`/`r` stay
non-negative at every call site, so they are carried as `Nat`; the Bézout
coefficients `oldS`/`s` can go negative and are `Int`. -/
def modInverseLoop (oldR r : Nat) (oldS s : Int) : Nat × Int :=
  if _hr : r = 0 then (oldR, oldS)
  else modInverseLoop r (oldR % r) s (oldS - (oldR / r : Nat) * s)
termination_by r
decreasing_by exact Nat.mod_lt _ (Nat.pos_of_ne_zero _hr)

/-- Source `modInverse(a, m)`: run the extended Euclidean loop starting from
`[oldR, r] = [a, m]`, `[oldS, s] = [1, 0]`, then return `oldS < 0 ? oldS + m :
oldS`.  All call sites pass a non-negative `a` (a value already reduced by
`modulo`, or a nonce drawn from `[0, n)`), embedded via `Int.toNat`. -/
def modInverse (a m : Int) : Int :=
  let p := modInverseLoop a.toNat m.toNat 1 0
  if p.2 < 0 then p.2 + m else p.2

/-- Source `hashMessage`: `hash = (hash * 256n + BigInt(byte)) % curveOrder`
folded over the message bytes (a stand-in hash, not SHA-256). -/
def hashMessage (message : List Nat) : Int :=
  message.foldl (fun hash b => (hash * 256 + (b : Int)).tmod CURVE_ORDER) 0

/-- One observed ECDSA signature (source interface `SignatureData`).  The
`message`, transaction-metadata and script-tag fields play no role in the
arithmetic and are omitted; `fromAddress` is kept because the orchestrator
counts distinct addresses. -/
structure SignatureData where
  messageHash : Int
  r : Int
  s : Int
  nonce : Option Int := none
  fromAddress : Option String := none
deriving Repr, DecidableEq

/-- Result record of the affine-recovery attack (source interface
`AttackResult`). -/
structure AttackResult where
  success : Bool
  recoveredPrivateKey : Option Int := none
  signaturesUsed : Option (List SignatureData) := none
  affineParams : Option (Int × Int) := none
  errorMessage : Option String := none
deriving Repr, DecidableEq

/-- Byte values of the source's fixture string
"Affinely related nonces are insecure". -/
def message1 : List Nat :=
  [65, 102, 102, 105, 110, 101, 108, 121, 32, 114, 101, 108, 97, 116, 101,
   100, 32, 110, 111, 110, 99, 101, 115, 32, 97, 114, 101, 32, 105, 110,
   115, 101, 99, 117, 114, 101]

/-- Byte values of the source's fixture string
"This is a vulnerability demonstration". -/
def message2 : List Nat :=
  [84, 104, 105, 115, 32, 105, 115, 32, 97, 32, 118, 117, 108, 110, 101,
   114, 97, 98, 105, 108, 105, 116, 121, 32, 100, 101, 109, 111, 110, 115,
   116, 114, 97, 116, 105, 111, 110]

/-- Source `signWithNonce(privateKey, message, nonce)`: the simplified signer
with `r = modulo(nonce, n)` and `s = modulo(nonceInv * (z + r*priv), n)`. -/
def signWithNonce (privateKey : Int) (message : List Nat) (nonce : Int) :
    SignatureData :=
  let messageHash := hashMessage message
  let r := modulo nonce CURVE_ORDER
  let nonceInv := modInverse nonce CURVE_ORDER
  let s := modulo (nonceInv * (messageHash + r * privateKey)) CURVE_ORDER
  { messageHash := messageHash, r := r, s := s, nonce := some nonce }

/-- Source `generateVulnerableSignatures(a, b, privateKey)`: builds two
signatures with the affinely related nonces `k1` and `k2 = modulo(a*k1+b,n)`.
The random draw `k1 = generateRandomBigInt(n)` (a value in `[0, n)`) is
supplied as an explicit argument. -/
def generateVulnerableSignatures (a b privateKey k1 : Int) :
    List SignatureData × Int :=
  let k2 := modulo (a * k1 + b) CURVE_ORDER
  let sig1 := signWithNonce privateKey message1 k1
  let sig2 := signWithNonce privateKey message2 k2
  ([sig1, sig2], privateKey)

/-- Source `recoverPrivateKey(signatures, a, b)`: affine-relationship
recovery.  The `signatures.length < 2` guard becomes the wildcard match arm;
the body never throws (all arithmetic is total), matching the source, whose
`try`/`catch` wrapper is dead for `bigint` arguments. -/
def recoverPrivateKey (signatures : List SignatureData) (a b : Int) :
    AttackResult :=
  match signatures with
  | sig1 :: sig2 :: _ =>
    let z1 := sig1.messageHash
    let z2 := sig2.messageHash
    let r1 := sig1.r
    let r2 := sig2.r
    let s1 := sig1.s
    let s2 := sig2.s
    if r1 = 0 ∨ s1 = 0 ∨ r2 = 0 ∨ s2 = 0 then
      { success := false,
        errorMessage := some "Invalid signature components (zero values detected)" }
    else
      let numerator := modulo (a * s2 * z1 - s1 * z2 + b * s1 * s2) CURVE_ORDER
      let denominator := modulo (r2 * s1 - a * r1 * s2) CURVE_ORDER
      if denominator = 0 then
        { success := false,
          errorMessage := some "Denominator is zero - signatures may not have affine nonce relationship" }
      else
        let denominatorInv := modInverse denominator CURVE_ORDER
        let recoveredPrivateKey := modulo (denominatorInv * numerator) CURVE_ORDER
        if recoveredPrivateKey = 0 then
          { success := false,
            errorMessage := some "Recovered private key is zero - invalid result" }
        else
          { success := true,
            recoveredPrivateKey := some recoveredPrivateKey,
            signaturesUsed := some [sig1, sig2],
            affineParams := some (a, b) }
  | _ =>
    { success := false, errorMessage := some "Need at least 2 signatures for attack" }

/-- The body of the source's inner `j` loop in
`recoverPrivateKeysFromNonceReuse`, for one pair `(sig1, sig2)`: zero or one
candidate private key.  The `try`/`catch` is dead (no arithmetic throws). -/
def pairCandidate (sig1 sig2 : SignatureData) : List Int :=
  let zDiff := modulo (sig1.messageHash - sig2.messageHash) CURVE_ORDER
  let sDiff := modulo (sig1.s - sig2.s) CURVE_ORDER
  if sDiff ≠ 0 then
    let sDiffInv := modInverse sDiff CURVE_ORDER
    let k := modulo (zDiff * sDiffInv) CURVE_ORDER
    if sig1.r ≠ 0 then
      let rInv := modInverse sig1.r CURVE_ORDER
      let priv := modulo ((sig1.s * k - sig1.messageHash) * rInv) CURVE_ORDER
      if priv ≠ 0 then [priv] else []
    else []
  else []

/-- The source's nested loops `for i ...: for j = i+1 ...`: every unordered
pair, in loop order (all pairs whose first member is `signatures[0]`, then
the pairs inside the tail). -/
def allPairCandidates : List SignatureData → List Int
  | [] => []
  | sig1 :: rest => rest.flatMap (pairCandidate sig1) ++ allPairCandidates rest

/-- The source's final `[...new Set(keys.map(k => k.toString()))].map(BigInt)`:
a JavaScript `Set` iterates in insertion order, so this keeps the first
occurrence of each value, in order (`bigint` → string is injective). -/
def dedupFirst (l : List Int) : List Int :=
  l.foldl (fun acc x => if x ∈ acc then acc else acc ++ [x]) []

/-- Source `recoverPrivateKeysFromNonceReuse(signatures)`: identical-nonce
recovery over every pair, deduplicated. -/
def recoverPrivateKeysFromNonceReuse (signatures : List SignatureData) :
    List Int :=
  dedupFirst (allPairCandidates signatures)

/-- Source `bytesToBigInt`: big-endian fold `result = (result << 8) + byte`. -/
def bytesToBigInt (bytes : List Nat) : Nat :=
  bytes.foldl (fun result b => result * 256 + b) 0

/-- Source `parseDERSignature`, over the byte sequence produced by
`hexToBytes`.  Reading past the end of a JavaScript `Uint8Array` yields
`undefined`, which fails the `!== 0x02` tag comparisons and, for an
`undefined` length byte, produces an empty slice and hence a zero integer
rejected by the final range check; both paths return `null`, embedded here
as `none`.  Note the source never validates the declared lengths against the
remaining buffer: `slice` clamps. -/
def parseDERSignature (bytes : List Nat) : Option (Nat × Nat) :=
  if bytes.length < 6 then none
  else if bytes[0]? ≠ some 0x30 then none
  -- offset = 2: skip 0x30 and the sequence length byte (never validated)
  else if bytes[2]? ≠ some 0x02 then none
  else
    match bytes[3]? with
    | none => none
    | some rLength =>
      let rBytes := (bytes.drop 4).take rLength
      let r := bytesToBigInt rBytes
      let offs := 4 + rLength
      if bytes[offs]? ≠ some 0x02 then none
      else
        match bytes[offs + 1]? with
        | none => none
        | some sLength =>
          let sBytes := (bytes.drop (offs + 2)).take sLength
          let s := bytesToBigInt sBytes
          if r = 0 ∨ s = 0 ∨ r ≥ curveOrderN ∨ s ≥ curveOrderN then none
          else some (r, s)

/-- One block returned by the block-data provider: the orchestrator only
reads its `transactions` array.  The transaction type is abstract here; the
source feeds each element to `extractSignatureFromTransaction`, which the
orchestrator below takes as the parameter `extract`. -/
structure Block (Tx : Type) where
  transactions : List Tx

/-- One entry of `result.potentialVulnerabilities`. -/
structure Vulnerability where
  type : String
  rValue : Option Int := none
  signatures : List SignatureData
  recoveredPrivateKeys : Option (List Int) := none
  severity : String
  description : String
deriving Repr, DecidableEq

/-- Source interface `ChainAnalysisResult`.  `analysisDuration` (wall-clock
milliseconds) is not part of the embedding. -/
structure ChainAnalysisResult where
  blocksAnalyzed : Nat
  transactionsProcessed : Nat
  signaturesExtracted : Nat
  potentialVulnerabilities : List Vulnerability
  rValueReuseCount : Nat
  uniqueAddresses : Nat
  errorCount : Nat
deriving Repr, DecidableEq

/-- The mutable locals of `analyzeBlockchainSignatures` while the block loop
runs: the counters of `result`, the insertion-ordered `rValueMap` (a
JavaScript `Map` keyed by `r.toString()`; `bigint` → string is injective, so
the key is carried as the `r` value itself) and the `addressSet` (a
JavaScript `Set`, insertion-ordered). -/
structure ScanState where
  blocksAnalyzed : Nat := 0
  transactionsProcessed : Nat := 0
  signaturesExtracted : Nat := 0
  errorCount : Nat := 0
  rValueMap : List (Int × List SignatureData) := []
  addresses : List String := []

/-- `addressSet.add(a)`: a JavaScript `Set` ignores re-insertions. -/
def insertAddress (l : List String) (a : String) : List String :=
  if a ∈ l then l else l ++ [a]

/-- The r-value tracking step: `rValueMap.get(rKey).push(sigData)` when the
key exists, else `rValueMap.set(rKey, [sigData])` (which appends the key in
insertion order). -/
def insertRValue (m : List (Int × List SignatureData)) (sig : SignatureData) :
    List (Int × List SignatureData) :=
  if m.any (fun p => p.1 = sig.r) then
    m.map (fun p => if p.1 = sig.r then (p.1, p.2 ++ [sig]) else p)
  else m ++ [(sig.r, [sig])]

/-- The body of the `for (const tx of blockData.transactions)` loop. -/
def processTx {Tx : Type} (extract : Tx → Option SignatureData)
    (st : ScanState) (tx : Tx) : ScanState :=
  let st := { st with transactionsProcessed := st.transactionsProcessed + 1 }
  match extract tx with
  | none => st
  | some sigData =>
    let st := { st with signaturesExtracted := st.signaturesExtracted + 1 }
    let st :=
      match sigData.fromAddress with
      | some a =>
        -- `if (sigData.fromAddress)`: the empty string is falsy in JavaScript
        if a = "" then st else { st with addresses := insertAddress st.addresses a }
      | none => st
    { st with rValueMap := insertRValue st.rValueMap sigData }

/-- The body of the block loop for one height: a provider failure or missing
block data increments the error counter and moves on; otherwise the block's
transactions are scanned. -/
def processBlock {Tx : Type} (provider : Int → Option (Block Tx))
    (extract : Tx → Option SignatureData) (st : ScanState) (height : Int) :
    ScanState :=
  match provider height with
  | none => { st with errorCount := st.errorCount + 1 }
  | some blockData =>
    (blockData.transactions).foldl (processTx extract)
      { st with blocksAnalyzed := st.blocksAnalyzed + 1 }

/-- The heights visited by
`for (let c = startBlock; c <= actualEndBlock; c++)` with
`actualEndBlock = min(endBlock, startBlock + maxBlocks - 1)`. -/
def blockHeights (startBlock endBlock maxBlocks : Int) : List Int :=
  (List.range (min endBlock (startBlock + maxBlocks - 1) - startBlock + 1).toNat).map
    (fun i : Nat => startBlock + (i : Int))

/-- The collision scan `for ([rValue, sigList] of rValueMap.entries()) if
(sigList.length > 1) ...`: buckets with at least two members, in map
(first-insertion) order. -/
def collisions (m : List (Int × List SignatureData)) :
    List (Int × List SignatureData) :=
  m.filter (fun p => 1 < p.2.length)

/-- Source `analyzeBlockchainSignatures(blockRange, maxBlocks)`: iterate the
bounded block range, feed extracted signatures into the r-value index, then
report every colliding bucket as an `r_value_reuse` vulnerability.  The
block-data provider and the transaction-signature extractor
(`getBlockData` / `extractSignatureFromTransaction` in the source) are the
external collaborators `provider` and `extract`. -/
def analyzeBlockchainSignatures {Tx : Type}
    (provider : Int → Option (Block Tx)) (extract : Tx → Option SignatureData)
    (startBlock endBlock maxBlocks : Int) : ChainAnalysisResult :=
  let st := (blockHeights startBlock endBlock maxBlocks).foldl
    (processBlock provider extract) {}
  let colls := collisions st.rValueMap
  { blocksAnalyzed := st.blocksAnalyzed,
    transactionsProcessed := st.transactionsProcessed,
    signaturesExtracted := st.signaturesExtracted,
    potentialVulnerabilities := colls.map (fun p =>
      { type := "r_value_reuse",
        rValue := some p.1,
        signatures := p.2,
        recoveredPrivateKeys := some (recoverPrivateKeysFromNonceReuse p.2),
        severity := "CRITICAL",
        description := "R-value " ++ toString p.1 ++ " reused " ++
          toString p.2.length ++ " times - nonce reuse detected" }),
    rValueReuseCount := colls.length,
    uniqueAddresses := st.addresses.length,
    errorCount := st.errorCount }

/-- The candidate of one pair, written exactly as the claim words it:
`s_diff = reduce(s_i - s_j)`; skip if zero; `k = reduce((z_i - z_j) *
inverse(s_diff))`; `priv = reduce((s_i * k - z_i) * inverse(r))` with `r`
the bucket's shared `r`-value; discard `priv = 0`. -/
def specPairCandidate (r : Int) (si sj : SignatureData) : List Int :=
  let sDiff := modulo (si.s - sj.s) CURVE_ORDER
  if sDiff = 0 then []
  else
    let k := modulo ((si.messageHash - sj.messageHash) * modInverse sDiff CURVE_ORDER)
      CURVE_ORDER
    let priv := modulo ((si.s * k - si.messageHash) * modInverse r CURVE_ORDER)
      CURVE_ORDER
    if priv = 0 then [] else [priv]

/-- All unordered pairs `(i, j)`, `i < j`, in order, as the claim describes. -/
def specAllPairCandidates (r : Int) : List SignatureData → List Int
  | [] => []
  | si :: rest => rest.flatMap (specPairCandidate r si) ++ specAllPairCandidates r rest

/-- The claim's description of identical-nonce recovery: the deduplicated
set (in first-seen order) of all remaining non-zero candidates. -/
def specRecoverFromReuse (r : Int) (sigs : List SignatureData) : List Int :=
  dedupFirst (specAllPairCandidates r sigs)

/-- The r-value index accumulated by the orchestrator's transaction loop:
each record is inserted into the map in stream order. -/
def buildRMap (sigs : List SignatureData) : List (Int × List SignatureData) :=
  sigs.foldl insertRValue []

/-- The bucket invariant of the r-value index: every record in a bucket
carries the bucket's key as its `r` component. -/
def RMapInv (m : List (Int × List SignatureData)) : Prop :=
  ∀ p ∈ m, ∀ sg ∈ p.2, sg.r = p.1

/-- The well-formed 70-byte DER shape `30 44 02 20 <r(32)> 02 20 <s(32)>`. -/
def derShape (rB sB : List Nat) : List Nat :=
  [0x30, 0x44, 0x02, 0x20] ++ rB ++ ([0x02, 0x20] ++ sB)

/-- The all-zero analysis result (what an empty pass produces). -/
def emptyResult : ChainAnalysisResult :=
  { blocksAnalyzed := 0, transactionsProcessed := 0, signaturesExtracted := 0,
    potentialVulnerabilities := [], rValueReuseCount := 0,
    uniqueAddresses := 0, errorCount := 0 }

/-- The fixture private key of the C1 counterexample: `n - z1`, the unique
key that makes the first generated signature's `s` component vanish when
`k1 = 1`. -/
def thePriv : Int :=
  65858475685438222584764432698044939641869834007488484142532978732243454752901

/-- A sample colliding record (witness infrastructure): `r = 5`, `s = 7`. -/
def sampleRec1 : SignatureData := { messageHash := 1, r := 5, s := 7 }

/-- A second sample record sharing `r = 5` and `s = 7` (equal `s`, so the
pair yields no recovery candidate). -/
def sampleRec2 : SignatureData := { messageHash := 2, r := 5, s := 7 }

/-- A one-block provider whose single block holds the two sample records as
transactions (the extractor is the identity-shaped `some`). -/
def sampleProvider : Int → Option (Block SignatureData) :=
  fun _ => some { transactions := [sampleRec1, sampleRec2] }

/-- The vulnerability entry the orchestrator reports for the sample bucket. -/
def sampleVuln : Vulnerability :=
  { type := "r_value_reuse", rValue := some 5,
    signatures := [sampleRec1, sampleRec2],
    recoveredPrivateKeys := some [], severity := "CRITICAL",
    description := "R-value 5 reused 2 times - nonce reuse detected" }

/-! ### Arithmetic facts about `modulo` and `modInverse` -/

lemma curveOrder_pos : (0 : Int) < CURVE_ORDER := by norm_num [CURVE_ORDER]

lemma curveOrder_cast : CURVE_ORDER = (curveOrderN : Int) := by
  norm_num [CURVE_ORDER, curveOrderN]

/-- JavaScript truncating remainder negates with its dividend. -/
lemma neg_tmod (a b : Int) : (-a).tmod b = -(a.tmod b) := by
  rw [Int.tmod_def, Int.tmod_def, Int.neg_tdiv]; ring

/-- Lower bound of the truncating remainder for a positive modulus. -/
lemma tmod_gt_neg (a m : Int) (hm : 0 < m) : -m < a.tmod m := by
  rcases le_or_lt 0 a with h | h
  · have := Int.tmod_nonneg m h; linarith
  · have h3 : (-a).tmod m < m := Int.tmod_lt_of_pos (-a) hm
    have h4 : (-a).tmod m = -(a.tmod m) := neg_tmod a m
    linarith

/-- The truncating remainder agrees with the Euclidean one modulo `m`. -/
lemma tmod_emod (a m : Int) : a.tmod m % m = a % m := by
  have h : a.tmod m = a + m * (-(a.tdiv m)) := by rw [Int.tmod_def]; ring
  rw [h, Int.add_mul_emod_self_left]

/-- The source's `modulo` is exactly the Euclidean remainder when `0 < m`. -/
lemma modulo_eq_emod (a m : Int) (hm : 0 < m) : modulo a m = a % m := by
  unfold modulo
  have h1 : 0 ≤ a.tmod m + m := by have := tmod_gt_neg a m hm; linarith
  have h2 : a.tmod m + m = a.tmod m + m * 1 := by ring
  rw [Int.tmod_eq_emod h1 hm.le, h2, Int.add_mul_emod_self_left, tmod_emod]

lemma modulo_nonneg (a m : Int) (hm : 0 < m) : 0 ≤ modulo a m := by
  rw [modulo_eq_emod a m hm]; exact Int.emod_nonneg a (ne_of_gt hm)

lemma modulo_lt (a m : Int) (hm : 0 < m) : modulo a m < m := by
  rw [modulo_eq_emod a m hm]; exact Int.emod_lt_of_pos a hm

lemma modulo_modEq (a m : Int) (hm : 0 < m) : modulo a m ≡ a [ZMOD m] := by
  rw [modulo_eq_emod a m hm]
  exact Int.emod_emod_of_dvd a dvd_rfl

lemma modulo_eq_self (a m : Int) (h0 : 0 ≤ a) (h1 : a < m) : modulo a m = a := by
  rw [modulo_eq_emod a m (lt_of_le_of_lt h0 h1)]
  exact Int.emod_eq_of_lt h0 h1

/-- Two values congruent mod `m` and both in `[0, m)` are equal. -/
lemma eq_of_modEq_of_lt {a b m : Int} (h : a ≡ b [ZMOD m])
    (ha0 : 0 ≤ a) (ha1 : a < m) (hb0 : 0 ≤ b) (hb1 : b < m) : a = b := by
  have h' : a % m = b % m := h
  rwa [Int.emod_eq_of_lt ha0 ha1, Int.emod_eq_of_lt hb0 hb1] at h'

/-- Invariant of the extended Euclidean loop: if both tracked values are
congruent to their Bézout combination with the original `a` modulo `m`, the
final pair is `(gcd, coefficient)` with the same property. -/
lemma modInverseLoop_spec (m a : Int) (r : Nat) :
    ∀ (oldR : Nat) (oldS s : Int),
      (oldR : Int) ≡ oldS * a [ZMOD m] → (r : Int) ≡ s * a [ZMOD m] →
      ((modInverseLoop oldR r oldS s).1 : Int) ≡
          (modInverseLoop oldR r oldS s).2 * a [ZMOD m] ∧
        (modInverseLoop oldR r oldS s).1 = Nat.gcd oldR r := by
  induction r using Nat.strong_induction_on with
  | _ r ih =>
    intro oldR oldS s h1 h2
    rw [modInverseLoop]
    by_cases hr : r = 0
    · subst hr; simpa using h1
    · rw [dif_neg hr]
      have hlt : oldR % r < r := Nat.mod_lt _ (Nat.pos_of_ne_zero hr)
      have hcast : ((oldR % r : Nat) : Int) =
          (oldR : Int) - (r : Int) * ((oldR / r : Nat) : Int) := by
        have h : ((oldR % r : Nat) : Int) + (r : Int) * ((oldR / r : Nat) : Int) =
            (oldR : Int) := by exact_mod_cast Nat.mod_add_div oldR r
        linarith
      have h2' : ((oldR % r : Nat) : Int) ≡
          (oldS - ((oldR / r : Nat) : Int) * s) * a [ZMOD m] := by
        have key := h1.sub (h2.mul_right ((oldR / r : Nat) : Int))
        have heq : oldS * a - s * a * ((oldR / r : Nat) : Int) =
            (oldS - ((oldR / r : Nat) : Int) * s) * a := by ring
        rw [hcast, ← heq]
        exact key
      have := ih (oldR % r) hlt r s (oldS - ((oldR / r : Nat) : Int) * s) h2 h2'
      refine ⟨this.1, ?_⟩
      rw [this.2, Nat.gcd_comm r (oldR % r), ← Nat.gcd_rec r oldR,
        Nat.gcd_comm r oldR]

/-- Correctness of the source's `modInverse` on its call-site domain: if `a`
is non-negative and invertible mod `m`, the returned value is a modular
inverse of `a`. -/
lemma modInverse_mul_modEq (a m : Int) (ha : 0 ≤ a) (hm : 0 < m)
    (h : ∃ x, a * x ≡ 1 [ZMOD m]) : a * modInverse a m ≡ 1 [ZMOD m] := by
  obtain ⟨x, hx⟩ := h
  have haa : ((a.toNat : Nat) : Int) = a := Int.toNat_of_nonneg ha
  have hmm : ((m.toNat : Nat) : Int) = m := Int.toNat_of_nonneg hm.le
  have h1 : ((a.toNat : Nat) : Int) ≡ 1 * a [ZMOD m] := by rw [haa, one_mul]
  have h2 : ((m.toNat : Nat) : Int) ≡ 0 * a [ZMOD m] := by
    rw [hmm, zero_mul]
    exact Int.modEq_zero_iff_dvd.mpr dvd_rfl
  have spec := modInverseLoop_spec m a m.toNat a.toNat 1 0 h1 h2
  have hgdvd1 : ((Nat.gcd a.toNat m.toNat : Nat) : Int) ∣ 1 := by
    have hda : ((Nat.gcd a.toNat m.toNat : Nat) : Int) ∣ a := by
      rw [← haa]; exact_mod_cast Nat.gcd_dvd_left _ _
    have hdm : ((Nat.gcd a.toNat m.toNat : Nat) : Int) ∣ m := by
      rw [← hmm]; exact_mod_cast Nat.gcd_dvd_right _ _
    have hmd : m ∣ a * x - 1 := (hx.symm).dvd
    have hgax : ((Nat.gcd a.toNat m.toNat : Nat) : Int) ∣ a * x - 1 :=
      dvd_trans hdm hmd
    have hgax2 : ((Nat.gcd a.toNat m.toNat : Nat) : Int) ∣ a * x :=
      hda.mul_right x
    have : ((Nat.gcd a.toNat m.toNat : Nat) : Int) ∣ a * x - (a * x - 1) :=
      dvd_sub hgax2 hgax
    simpa using this
  have hg1 : Nat.gcd a.toNat m.toNat = 1 := by
    have := Int.eq_one_of_dvd_one (by positivity) hgdvd1
    exact_mod_cast this
  have hone : (1 : Int) ≡ (modInverseLoop a.toNat m.toNat 1 0).2 * a [ZMOD m] := by
    have := spec.1
    rwa [spec.2, hg1] at this
  have hres : modInverse a m ≡ (modInverseLoop a.toNat m.toNat 1 0).2 [ZMOD m] := by
    have hzeta : modInverse a m =
        if (modInverseLoop a.toNat m.toNat 1 0).2 < 0 then
          (modInverseLoop a.toNat m.toNat 1 0).2 + m
        else (modInverseLoop a.toNat m.toNat 1 0).2 := rfl
    rw [hzeta]
    by_cases hneg : (modInverseLoop a.toNat m.toNat 1 0).2 < 0
    · rw [if_pos hneg]
      show ((modInverseLoop a.toNat m.toNat 1 0).2 + m) % m =
        (modInverseLoop a.toNat m.toNat 1 0).2 % m
      have h2 : (modInverseLoop a.toNat m.toNat 1 0).2 + m =
          (modInverseLoop a.toNat m.toNat 1 0).2 + m * 1 := by ring
      rw [h2, Int.add_mul_emod_self_left]
    · rw [if_neg hneg]
  calc a * modInverse a m
      ≡ a * (modInverseLoop a.toNat m.toNat 1 0).2 [ZMOD m] := hres.mul_left a
    _ ≡ 1 [ZMOD m] := by
        have := hone.symm
        have heq : (modInverseLoop a.toNat m.toNat 1 0).2 * a =
            a * (modInverseLoop a.toNat m.toNat 1 0).2 := by ring
        rwa [heq] at this

/-! ### C9: the modular reduction primitive -/

/-- C9: for every integer `a` (negative included), `modulo a n` with `n` the
secp256k1 curve order returns `r` with `0 ≤ r < n` and `r ≡ a (mod n)`,
computed as `((a % n) + n) % n` in exact arbitrary-precision arithmetic. -/
theorem C9_modulo_reduction (a : Int) :
    0 ≤ modulo a CURVE_ORDER ∧ modulo a CURVE_ORDER < CURVE_ORDER ∧
      modulo a CURVE_ORDER ≡ a [ZMOD CURVE_ORDER] :=
  ⟨modulo_nonneg a CURVE_ORDER curveOrder_pos,
   modulo_lt a CURVE_ORDER curveOrder_pos,
   modulo_modEq a CURVE_ORDER curveOrder_pos⟩

/-! ### C4: the modular-inverse primitive -/

/-- Concrete value of the extended Euclidean loop at `a = 0`. -/
lemma modInverse_zero : modInverse 0 CURVE_ORDER = 0 := by
  simp [modInverse, modInverseLoop, CURVE_ORDER]

/-- C4, counterexample: at `a = 0` (so `gcd(a, n) = n ≠ 1`) the source's
`modInverse` does not signal an error — it returns the ordinary value `0`,
which is not a modular inverse.  (The TypeScript function contains no throw
site: the loop guard `r !== 0n` protects the only division.) -/
theorem C4_counterexample :
    modInverse 0 CURVE_ORDER = 0 ∧
      ¬(0 * modInverse 0 CURVE_ORDER ≡ 1 [ZMOD CURVE_ORDER]) := by
  refine ⟨modInverse_zero, ?_⟩
  rw [modInverse_zero]
  intro h
  have h' : (0 : Int) % CURVE_ORDER = 1 % CURVE_ORDER := h
  norm_num [CURVE_ORDER] at h'

/-- C4, amended: `modInverse` never signals an error.  At `a ≡ 0 (mod n)` it
returns `0` (which is not an inverse); for every non-negative `a` that is
invertible mod `n` it returns `r` with `a * r ≡ 1 (mod n)`. -/
theorem C4_modInverse_amended (a : Int) (ha : 0 ≤ a) :
    modInverse 0 CURVE_ORDER = 0 ∧
      ((∃ x, a * x ≡ 1 [ZMOD CURVE_ORDER]) →
        a * modInverse a CURVE_ORDER ≡ 1 [ZMOD CURVE_ORDER]) :=
  ⟨modInverse_zero, fun h => modInverse_mul_modEq a CURVE_ORDER ha curveOrder_pos h⟩

/-- Witness for C4: at `a = 2` the hypotheses hold and the returned value is
an inverse of `2` mod `n`. -/
theorem C4_witness :
    modInverse 0 CURVE_ORDER = 0 ∧
      2 * modInverse 2 CURVE_ORDER ≡ 1 [ZMOD CURVE_ORDER] := by
  have h := C4_modInverse_amended 2 (by norm_num)
  refine ⟨h.1, h.2 ⟨57896044618658097711785492504343953926418782139537452191302581570759080747169, ?_⟩⟩
  decide

/-! ### C3: structured outcomes of affine recovery -/

/-- C3: with at least two signatures, `recoverPrivateKey` returns a
structured failure (never throwing): invalid-components if some of
`r1, s1, r2, s2` is zero; zero-denominator exactly when
`modulo (r2*s1 - a*r1*s2) n = 0`; zero-result when the computed key is `0`;
otherwise success carrying the key, the two signatures used and `(a, b)`. -/
theorem C3_recoverPrivateKey_outcomes (sig1 sig2 : SignatureData)
    (rest : List SignatureData) (a b : Int) :
    (sig1.r = 0 ∨ sig1.s = 0 ∨ sig2.r = 0 ∨ sig2.s = 0 →
      recoverPrivateKey (sig1 :: sig2 :: rest) a b =
        { success := false,
          errorMessage := some "Invalid signature components (zero values detected)" }) ∧
    (¬(sig1.r = 0 ∨ sig1.s = 0 ∨ sig2.r = 0 ∨ sig2.s = 0) →
      modulo (sig2.r * sig1.s - a * sig1.r * sig2.s) CURVE_ORDER = 0 →
      recoverPrivateKey (sig1 :: sig2 :: rest) a b =
        { success := false,
          errorMessage := some "Denominator is zero - signatures may not have affine nonce relationship" }) ∧
    (¬(sig1.r = 0 ∨ sig1.s = 0 ∨ sig2.r = 0 ∨ sig2.s = 0) →
      modulo (sig2.r * sig1.s - a * sig1.r * sig2.s) CURVE_ORDER ≠ 0 →
      modulo (modInverse (modulo (sig2.r * sig1.s - a * sig1.r * sig2.s) CURVE_ORDER) CURVE_ORDER *
          modulo (a * sig2.s * sig1.messageHash - sig1.s * sig2.messageHash +
            b * sig1.s * sig2.s) CURVE_ORDER) CURVE_ORDER = 0 →
      recoverPrivateKey (sig1 :: sig2 :: rest) a b =
        { success := false,
          errorMessage := some "Recovered private key is zero - invalid result" }) ∧
    (¬(sig1.r = 0 ∨ sig1.s = 0 ∨ sig2.r = 0 ∨ sig2.s = 0) →
      modulo (sig2.r * sig1.s - a * sig1.r * sig2.s) CURVE_ORDER ≠ 0 →
      modulo (modInverse (modulo (sig2.r * sig1.s - a * sig1.r * sig2.s) CURVE_ORDER) CURVE_ORDER *
          modulo (a * sig2.s * sig1.messageHash - sig1.s * sig2.messageHash +
            b * sig1.s * sig2.s) CURVE_ORDER) CURVE_ORDER ≠ 0 →
      recoverPrivateKey (sig1 :: sig2 :: rest) a b =
        { success := true,
          recoveredPrivateKey := some (modulo
            (modInverse (modulo (sig2.r * sig1.s - a * sig1.r * sig2.s) CURVE_ORDER) CURVE_ORDER *
              modulo (a * sig2.s * sig1.messageHash - sig1.s * sig2.messageHash +
                b * sig1.s * sig2.s) CURVE_ORDER) CURVE_ORDER),
          signaturesUsed := some [sig1, sig2],
          affineParams := some (a, b) }) := by
  refine ⟨?_, ?_, ?_, ?_⟩
  · intro h
    simp only [recoverPrivateKey]
    rw [if_pos h]
  · intro h hden
    simp only [recoverPrivateKey]
    rw [if_neg h, if_pos hden]
  · intro h hden hres
    simp only [recoverPrivateKey]
    rw [if_neg h, if_neg hden, if_pos hres]
  · intro h hden hres
    simp only [recoverPrivateKey]
    rw [if_neg h, if_neg hden, if_neg hres]

/-- Witness for C3: a concrete input exercising the zero-denominator branch
(`r2*s1 ≡ a*r1*s2 (mod n)` with all components non-zero). -/
theorem C3_witness :
    recoverPrivateKey
        [{ messageHash := 1, r := 1, s := 1 }, { messageHash := 2, r := 1, s := 1 }] 1 0 =
      { success := false,
        errorMessage := some "Denominator is zero - signatures may not have affine nonce relationship" } := by
  have h := C3_recoverPrivateKey_outcomes
    { messageHash := 1, r := 1, s := 1 } { messageHash := 2, r := 1, s := 1 } [] 1 0
  exact h.2.1 (by decide) (by decide)

/-! ### C2: identical-nonce recovery -/

/-- Congruent arguments reduce to the same value. -/
lemma modulo_congr {x y m : Int} (hm : 0 < m) (h : x ≡ y [ZMOD m]) :
    modulo x m = modulo y m :=
  eq_of_modEq_of_lt
    ((modulo_modEq x m hm).trans (h.trans (modulo_modEq y m hm).symm))
    (modulo_nonneg x m hm) (modulo_lt x m hm)
    (modulo_nonneg y m hm) (modulo_lt y m hm)

/-- Pre-reducing the left factor does not change a reduced product. -/
lemma modulo_mul_modulo_left (x y m : Int) (hm : 0 < m) :
    modulo (modulo x m * y) m = modulo (x * y) m :=
  modulo_congr hm ((modulo_modEq x m hm).mul_right y)

/-- On a pair whose first member carries the shared `r`, the source's loop
body computes exactly the claim's candidate. -/
lemma pairCandidate_eq_spec (r : Int) (si sj : SignatureData) (hi : si.r = r) :
    pairCandidate si sj = specPairCandidate r si sj := by
  simp only [pairCandidate, specPairCandidate]
  by_cases hs : modulo (si.s - sj.s) CURVE_ORDER = 0
  · rw [if_neg (not_not_intro hs), if_pos hs]
  · rw [if_pos hs, if_neg hs,
      modulo_mul_modulo_left (si.messageHash - sj.messageHash)
        (modInverse (modulo (si.s - sj.s) CURVE_ORDER) CURVE_ORDER)
        CURVE_ORDER curveOrder_pos]
    by_cases hr : r = 0
    · subst hr
      rw [if_neg (not_not_intro hi), modInverse_zero]
      have hz0 : modulo (0 : Int) CURVE_ORDER = 0 :=
        modulo_eq_self 0 CURVE_ORDER le_rfl curveOrder_pos
      simp [hz0]
    · rw [if_pos (show si.r ≠ 0 from hi ▸ hr), hi]
      by_cases hp : modulo ((si.s *
          modulo ((si.messageHash - sj.messageHash) *
            modInverse (modulo (si.s - sj.s) CURVE_ORDER) CURVE_ORDER) CURVE_ORDER -
          si.messageHash) * modInverse r CURVE_ORDER) CURVE_ORDER = 0
      · rw [if_neg (not_not_intro hp), if_pos hp]
      · rw [if_pos hp, if_neg hp]

/-- The nested loops of the source compute the claim's pair scan whenever
every record in the bucket carries the shared `r`. -/
lemma allPairCandidates_eq_spec (r : Int) :
    ∀ sigs : List SignatureData, (∀ sig ∈ sigs, sig.r = r) →
      allPairCandidates sigs = specAllPairCandidates r sigs := by
  intro sigs
  induction sigs with
  | nil => intro _; rfl
  | cons si rest ih =>
    intro hshare
    have hi : si.r = r := hshare si (List.mem_cons_self si rest)
    have hrest : ∀ sig ∈ rest, sig.r = r :=
      fun sig hsig => hshare sig (List.mem_cons_of_mem si hsig)
    unfold allPairCandidates specAllPairCandidates
    rw [ih hrest]
    congr 1
    have : ∀ sj ∈ rest, pairCandidate si sj = specPairCandidate r si sj :=
      fun sj _ => pairCandidate_eq_spec r si sj hi
    simp only [List.flatMap]
    rw [List.map_congr_left this]

/-- Concrete value of `inverse(reduce(7-9)) = inverse(n-2)` mod `n`. -/
lemma modInverse_n_sub_two :
    modInverse (modulo (7 - 9 : Int) CURVE_ORDER) CURVE_ORDER =
      57896044618658097711785492504343953926418782139537452191302581570759080747168 := by
  have h : modulo (7 - 9 : Int) CURVE_ORDER =
      115792089237316195423570985008687907852837564279074904382605163141518161494335 := by
    decide
  rw [h]
  simp [modInverse, modInverseLoop, CURVE_ORDER]

/-- Concrete value of `inverse(5)` mod `n`. -/
lemma modInverse_five :
    modInverse (5 : Int) CURVE_ORDER =
      46316835694926478169428394003475163141135025711629961753042065256607264597735 := by
  simp [modInverse, modInverseLoop, CURVE_ORDER]

/-- The claim's concrete scenario evaluates to the single candidate `5`. -/
lemma scenario_value :
    modulo ((7 * modulo ((10 - 20 : Int) *
        modInverse (modulo (7 - 9 : Int) CURVE_ORDER) CURVE_ORDER) CURVE_ORDER - 10) *
      modInverse 5 CURVE_ORDER) CURVE_ORDER = 5 := by
  rw [modInverse_n_sub_two, modInverse_five]
  decide

/-- Running the source's identical-nonce recovery on the claim's concrete
records returns exactly `[5]`. -/
lemma scenario_eval :
    recoverPrivateKeysFromNonceReuse
        [{ messageHash := 10, r := 5, s := 7 }, { messageHash := 20, r := 5, s := 9 }] =
      [5] := by
  simp only [recoverPrivateKeysFromNonceReuse, allPairCandidates, List.flatMap,
    List.map, List.flatten, pairCandidate, dedupFirst]
  rw [modInverse_n_sub_two, modInverse_five]
  decide

/-- C2: on a bucket of signatures sharing the same `r`, the source's
identical-nonce recovery performs exactly the claim's pair scan — every
unordered pair, skipping `reduce(s_i - s_j) = 0`, computing
`k = reduce((z_i - z_j) * inverse(s_diff))` and
`priv = reduce((s_i*k - z_i) * inverse(r))`, discarding `priv = 0`, and
deduplicating the remaining candidates in first-seen order — and on the
concrete inputs `z = 10, 20`, `r = 5`, `s = 7, 9` over the secp256k1 order it
returns exactly the single value of that formula, namely `5`. -/
theorem C2_nonce_reuse_recovery (r : Int) (sigs : List SignatureData)
    (hshare : ∀ sig ∈ sigs, sig.r = r) :
    recoverPrivateKeysFromNonceReuse sigs = specRecoverFromReuse r sigs ∧
    recoverPrivateKeysFromNonceReuse
        [{ messageHash := 10, r := 5, s := 7 }, { messageHash := 20, r := 5, s := 9 }] =
      [modulo ((7 * modulo ((10 - 20 : Int) *
          modInverse (modulo (7 - 9 : Int) CURVE_ORDER) CURVE_ORDER) CURVE_ORDER - 10) *
        modInverse 5 CURVE_ORDER) CURVE_ORDER] ∧
    modulo ((7 * modulo ((10 - 20 : Int) *
        modInverse (modulo (7 - 9 : Int) CURVE_ORDER) CURVE_ORDER) CURVE_ORDER - 10) *
      modInverse 5 CURVE_ORDER) CURVE_ORDER = 5 := by
  refine ⟨?_, ?_, scenario_value⟩
  · unfold recoverPrivateKeysFromNonceReuse specRecoverFromReuse
    rw [allPairCandidates_eq_spec r sigs hshare]
  · rw [scenario_eval, scenario_value]

/-- Witness for C2: the shared-`r` hypothesis holds for the claim's concrete
bucket, and the equalities are concrete. -/
theorem C2_witness :
    recoverPrivateKeysFromNonceReuse
        [{ messageHash := 10, r := 5, s := 7 }, { messageHash := 20, r := 5, s := 9 }] =
      specRecoverFromReuse 5
        [{ messageHash := 10, r := 5, s := 7 }, { messageHash := 20, r := 5, s := 9 }] ∧
    recoverPrivateKeysFromNonceReuse
        [{ messageHash := 10, r := 5, s := 7 }, { messageHash := 20, r := 5, s := 9 }] =
      [modulo ((7 * modulo ((10 - 20 : Int) *
          modInverse (modulo (7 - 9 : Int) CURVE_ORDER) CURVE_ORDER) CURVE_ORDER - 10) *
        modInverse 5 CURVE_ORDER) CURVE_ORDER] ∧
    modulo ((7 * modulo ((10 - 20 : Int) *
        modInverse (modulo (7 - 9 : Int) CURVE_ORDER) CURVE_ORDER) CURVE_ORDER - 10) *
      modInverse 5 CURVE_ORDER) CURVE_ORDER = 5 :=
  C2_nonce_reuse_recovery 5
    [{ messageHash := 10, r := 5, s := 7 }, { messageHash := 20, r := 5, s := 9 }]
    (by decide)

/-! ### C7: first-seen ordering of the r-value index -/

/-- Updating an existing bucket leaves the key sequence unchanged. -/
lemma insertRValue_keys (m : List (Int × List SignatureData)) (s : SignatureData) :
    (insertRValue m s).map Prod.fst =
      if s.r ∈ m.map Prod.fst then m.map Prod.fst else m.map Prod.fst ++ [s.r] := by
  unfold insertRValue
  by_cases hmem : m.any (fun p => p.1 = s.r) = true
  · rw [if_pos hmem]
    have hin : s.r ∈ m.map Prod.fst := by
      simp only [List.any_eq_true, decide_eq_true_eq] at hmem
      obtain ⟨p, hp, he⟩ := hmem
      exact List.mem_map.mpr ⟨p, hp, he⟩
    rw [if_pos hin, List.map_map]
    refine List.map_congr_left (fun p _ => ?_)
    by_cases h : p.1 = s.r <;> simp [h]
  · rw [if_neg hmem]
    have hnin : s.r ∉ m.map Prod.fst := by
      intro hin
      apply hmem
      obtain ⟨p, hp, he⟩ := List.mem_map.mp hin
      simp only [List.any_eq_true, decide_eq_true_eq]
      exact ⟨p, hp, he⟩
    rw [if_neg hnin, List.map_append]
    rfl

/-- The key sequence of the index is the first-seen deduplication of the
inserted `r` sequence, for any starting map. -/
lemma buildRMap_keys_from (sigs : List SignatureData) :
    ∀ m : List (Int × List SignatureData),
      (sigs.foldl insertRValue m).map Prod.fst =
        (sigs.map SignatureData.r).foldl
          (fun acc x => if x ∈ acc then acc else acc ++ [x]) (m.map Prod.fst) := by
  induction sigs with
  | nil => intro m; rfl
  | cons s rest ih =>
    intro m
    simp only [List.foldl_cons, List.map_cons]
    rw [ih (insertRValue m s), insertRValue_keys]

/-- C7: the index reports collision buckets in the order of each `r`-value's
first insertion — the index's key sequence is the first-seen deduplication of
the inserted `r` sequence, only buckets with at least two members are
reported, and the insertion pattern `[A, B, A, C, B]` yields collision
buckets in the order `[A, B]`. -/
theorem C7_index_ordering (sigs : List SignatureData) (A B C : Int)
    (s1 s2 s3 s4 s5 : SignatureData)
    (h1 : s1.r = A) (h2 : s2.r = B) (h3 : s3.r = A) (h4 : s4.r = C) (h5 : s5.r = B)
    (hAB : A ≠ B) (hAC : A ≠ C) (hBC : B ≠ C) :
    (buildRMap sigs).map Prod.fst = dedupFirst (sigs.map SignatureData.r) ∧
    collisions (buildRMap sigs) =
      (buildRMap sigs).filter (fun p => 2 ≤ p.2.length) ∧
    (collisions (buildRMap [s1, s2, s3, s4, s5])).map Prod.fst = [A, B] := by
  refine ⟨buildRMap_keys_from sigs [], ?_, ?_⟩
  · unfold collisions
    refine List.filter_congr (fun p _ => ?_)
    simp [Nat.lt_iff_add_one_le]
  · have e : buildRMap [s1, s2, s3, s4, s5] =
        [(A, [s1, s3]), (B, [s2, s5]), (C, [s4])] := by
      simp [buildRMap, insertRValue, h1, h2, h3, h4, h5,
        hAB, hAC, hBC, hAB.symm, hAC.symm, hBC.symm]
    rw [e]
    simp [collisions]

/-- Witness for C7: concrete distinct `r` values `1, 2, 3` and five concrete
records realising the pattern `[A, B, A, C, B]`. -/
theorem C7_witness :
    (buildRMap [{ messageHash := 0, r := 1, s := 1 }]).map Prod.fst =
      dedupFirst ([{ messageHash := 0, r := 1, s := 1 }].map SignatureData.r) ∧
    collisions (buildRMap [{ messageHash := 0, r := 1, s := 1 }]) =
      (buildRMap [{ messageHash := 0, r := 1, s := 1 }]).filter
        (fun p => 2 ≤ p.2.length) ∧
    (collisions (buildRMap
        [{ messageHash := 0, r := 1, s := 1 }, { messageHash := 0, r := 2, s := 1 },
         { messageHash := 0, r := 1, s := 2 }, { messageHash := 0, r := 3, s := 1 },
         { messageHash := 0, r := 2, s := 2 }])).map Prod.fst = [1, 2] :=
  C7_index_ordering [{ messageHash := 0, r := 1, s := 1 }] 1 2 3
    { messageHash := 0, r := 1, s := 1 } { messageHash := 0, r := 2, s := 1 }
    { messageHash := 0, r := 1, s := 2 } { messageHash := 0, r := 3, s := 1 }
    { messageHash := 0, r := 2, s := 2 }
    rfl rfl rfl rfl rfl (by decide) (by decide) (by decide)

/-! ### C8, C10, C5: the chain-analysis orchestrator -/

/-- The transaction loop never touches the per-block counters. -/
lemma processTx_counters {Tx : Type} (extract : Tx → Option SignatureData)
    (st : ScanState) (tx : Tx) :
    (processTx extract st tx).errorCount = st.errorCount ∧
      (processTx extract st tx).blocksAnalyzed = st.blocksAnalyzed := by
  unfold processTx
  rcases extract tx with _ | sig
  · exact ⟨rfl, rfl⟩
  · rcases h : sig.fromAddress with _ | a
    · simp [h]
    · by_cases ha : a = "" <;> simp [h, ha]

/-- Folding the transaction loop over a block's transactions never touches
the per-block counters. -/
lemma foldTx_counters {Tx : Type} (extract : Tx → Option SignatureData)
    (txs : List Tx) :
    ∀ st : ScanState,
      (txs.foldl (processTx extract) st).errorCount = st.errorCount ∧
        (txs.foldl (processTx extract) st).blocksAnalyzed = st.blocksAnalyzed := by
  induction txs with
  | nil => intro st; exact ⟨rfl, rfl⟩
  | cons tx rest ih =>
    intro st
    have h1 := processTx_counters extract st tx
    have h2 := ih (processTx extract st tx)
    simp only [List.foldl_cons]
    exact ⟨h2.1.trans h1.1, h2.2.trans h1.2⟩

/-- Per pass over the block range: the error counter counts exactly the
heights where the provider fails, and `blocksAnalyzed` counts exactly the
heights where it succeeds. -/
lemma foldBlocks_counters {Tx : Type} (provider : Int → Option (Block Tx))
    (extract : Tx → Option SignatureData) (heights : List Int) :
    ∀ st : ScanState,
      ((heights.foldl (processBlock provider extract) st).errorCount =
        st.errorCount + ((heights.filter (fun h => (provider h).isNone)).length)) ∧
      ((heights.foldl (processBlock provider extract) st).blocksAnalyzed =
        st.blocksAnalyzed + ((heights.filter (fun h => (provider h).isSome)).length)) := by
  induction heights with
  | nil => intro st; simp
  | cons h rest ih =>
    intro st
    simp only [List.foldl_cons, List.filter_cons]
    rcases hp : provider h with _ | blk
    · have step : processBlock provider extract st h =
          { st with errorCount := st.errorCount + 1 } := by
        unfold processBlock; rw [hp]
      rw [step]
      have := ih { st with errorCount := st.errorCount + 1 }
      simp [hp, this.1, this.2]
      omega
    · have step : processBlock provider extract st h =
          blk.transactions.foldl (processTx extract)
            { st with blocksAnalyzed := st.blocksAnalyzed + 1 } := by
        unfold processBlock; rw [hp]
      rw [step]
      have hfold := foldTx_counters extract blk.transactions
        { st with blocksAnalyzed := st.blocksAnalyzed + 1 }
      have := ih (blk.transactions.foldl (processTx extract)
        { st with blocksAnalyzed := st.blocksAnalyzed + 1 })
      rw [this.1, this.2, hfold.1, hfold.2]
      simp [hp]
      omega

/-- C8: the orchestrator visits exactly the heights in
`[start, min(end, start + maxBlocks - 1)]`, in increasing order; every height
where the provider fails or returns no data adds one to the error counter and
is skipped (never fatal), and such a height is not counted in
`blocksAnalyzed`. -/
theorem C8_block_range {Tx : Type} (provider : Int → Option (Block Tx))
    (extract : Tx → Option SignatureData) (startBlock endBlock maxBlocks h : Int) :
    (blockHeights startBlock endBlock maxBlocks).Pairwise (fun x y => x < y) ∧
    (h ∈ blockHeights startBlock endBlock maxBlocks ↔
      startBlock ≤ h ∧ h ≤ min endBlock (startBlock + maxBlocks - 1)) ∧
    (analyzeBlockchainSignatures provider extract startBlock endBlock maxBlocks).errorCount =
      ((blockHeights startBlock endBlock maxBlocks).filter
        (fun x => (provider x).isNone)).length ∧
    (analyzeBlockchainSignatures provider extract startBlock endBlock maxBlocks).blocksAnalyzed =
      ((blockHeights startBlock endBlock maxBlocks).filter
        (fun x => (provider x).isSome)).length := by
  refine ⟨?_, ?_, ?_, ?_⟩
  · unfold blockHeights
    rw [List.pairwise_map]
    refine (List.pairwise_lt_range _).imp ?_
    intro a b hab
    omega
  · unfold blockHeights
    simp only [List.mem_map, List.mem_range]
    constructor
    · rintro ⟨i, hi, rfl⟩
      omega
    · rintro ⟨hs, he⟩
      exact ⟨(h - startBlock).toNat, by omega, by omega⟩
  · have := foldBlocks_counters provider extract
      (blockHeights startBlock endBlock maxBlocks) {}
    simpa [analyzeBlockchainSignatures] using this.1
  · have := foldBlocks_counters provider extract
      (blockHeights startBlock endBlock maxBlocks) {}
    simpa [analyzeBlockchainSignatures] using this.2

lemma insertRValue_inv {m : List (Int × List SignatureData)}
    (hm : RMapInv m) (s : SignatureData) : RMapInv (insertRValue m s) := by
  unfold insertRValue
  by_cases hmem : m.any (fun p => p.1 = s.r) = true
  · rw [if_pos hmem]
    intro p hp sg hsg
    obtain ⟨q, hq, hqe⟩ := List.mem_map.mp hp
    by_cases h : q.1 = s.r
    · rw [if_pos h] at hqe
      subst hqe
      rcases List.mem_append.mp hsg with h1 | h1
      · exact hm q hq sg h1
      · simp only [List.mem_singleton] at h1
        subst h1; exact h.symm
    · rw [if_neg h] at hqe
      subst hqe
      exact hm q hq sg hsg
  · rw [if_neg hmem]
    intro p hp sg hsg
    rcases List.mem_append.mp hp with h1 | h1
    · exact hm p h1 sg hsg
    · simp only [List.mem_singleton] at h1
      subst h1
      simp only [List.mem_singleton] at hsg
      subst hsg; rfl

lemma processTx_inv {Tx : Type} (extract : Tx → Option SignatureData)
    {st : ScanState} (hm : RMapInv st.rValueMap) (tx : Tx) :
    RMapInv (processTx extract st tx).rValueMap := by
  unfold processTx
  rcases extract tx with _ | sig
  · exact hm
  · rcases h : sig.fromAddress with _ | a
    · simpa [h] using insertRValue_inv hm sig
    · by_cases ha : a = "" <;> simpa [h, ha] using insertRValue_inv hm sig

lemma foldTx_inv {Tx : Type} (extract : Tx → Option SignatureData)
    (txs : List Tx) :
    ∀ st : ScanState, RMapInv st.rValueMap →
      RMapInv (txs.foldl (processTx extract) st).rValueMap := by
  induction txs with
  | nil => intro st hm; exact hm
  | cons tx rest ih =>
    intro st hm
    exact ih (processTx extract st tx) (processTx_inv extract hm tx)

lemma foldBlocks_inv {Tx : Type} (provider : Int → Option (Block Tx))
    (extract : Tx → Option SignatureData) (heights : List Int) :
    ∀ st : ScanState, RMapInv st.rValueMap →
      RMapInv ((heights.foldl (processBlock provider extract) st).rValueMap) := by
  induction heights with
  | nil => intro st hm; exact hm
  | cons h rest ih =>
    intro st hm
    refine ih (processBlock provider extract st h) ?_
    unfold processBlock
    rcases provider h with _ | blk
    · exact hm
    · exact foldTx_inv extract blk.transactions _ hm

/-- C10: in every result of the orchestrator, `rValueReuseCount` equals the
number of reported vulnerabilities, and every reported vulnerability is an
`r_value_reuse` entry holding at least two signatures, all of which carry
the bucket's `r` value. -/
theorem C10_vulnerability_invariants {Tx : Type}
    (provider : Int → Option (Block Tx)) (extract : Tx → Option SignatureData)
    (startBlock endBlock maxBlocks : Int) (v : Vulnerability)
    (hv : v ∈ (analyzeBlockchainSignatures provider extract
      startBlock endBlock maxBlocks).potentialVulnerabilities) :
    (analyzeBlockchainSignatures provider extract
        startBlock endBlock maxBlocks).rValueReuseCount =
      (analyzeBlockchainSignatures provider extract
        startBlock endBlock maxBlocks).potentialVulnerabilities.length ∧
    v.type = "r_value_reuse" ∧ 2 ≤ v.signatures.length ∧
    v.signatures.all (fun sg => v.rValue = some sg.r) = true := by
  have hinv : RMapInv ((blockHeights startBlock endBlock maxBlocks).foldl
      (processBlock provider extract) {}).rValueMap :=
    foldBlocks_inv provider extract _ {} (by intro p hp; cases hp)
  constructor
  · simp [analyzeBlockchainSignatures]
  · simp only [analyzeBlockchainSignatures] at hv
    obtain ⟨p, hp, hpe⟩ := List.mem_map.mp hv
    have hcoll := List.mem_filter.mp hp
    have hlen : 1 < p.2.length := by
      have := hcoll.2
      simpa [collisions] using this
    subst hpe
    refine ⟨rfl, ?_, ?_⟩
    · show 2 ≤ p.2.length
      omega
    · simp only [List.all_eq_true, decide_eq_true_eq]
      intro sg hsg
      have hr := hinv p hcoll.1 sg hsg
      show some p.1 = some sg.r
      rw [hr]

/-- Witness for C10: a one-block pass over the sample provider produces
exactly the sample vulnerability, and the claimed invariants hold for it. -/
theorem C10_witness :
    (analyzeBlockchainSignatures sampleProvider some 0 0 1).rValueReuseCount =
      (analyzeBlockchainSignatures sampleProvider some 0 0 1).potentialVulnerabilities.length ∧
    sampleVuln.type = "r_value_reuse" ∧ 2 ≤ sampleVuln.signatures.length ∧
    sampleVuln.signatures.all (fun sg => sampleVuln.rValue = some sg.r) = true :=
  C10_vulnerability_invariants sampleProvider some 0 0 1 sampleVuln (by decide)

/-- C5, counterexample: calling the orchestrator with `start > end`
(here `start = 5`, `end = 3`) is not rejected and raises no error: the loop
range is empty, so the call silently returns the ordinary all-zero result
with `errorCount = 0` — there is no rejection path in the source (the only
`start > end` behaviour is `actualEndBlock < startBlock`, which skips the
loop). -/
theorem C5_counterexample :
    analyzeBlockchainSignatures
        (fun _ => some { transactions := ([] : List Unit) }) (fun _ => none)
        5 3 1000 =
      emptyResult := by
  decide

/-- C5, amended: calling `analyzeBlockchainSignatures` with an invalid range
(`start > end`) fetches no block and performs no per-block work — the visited
height list is empty — but it is not rejected: the call returns the all-zero
result (success-shaped, `errorCount = 0`) silently, for every provider,
extractor and `maxBlocks`. -/
theorem C5_invalid_range_amended {Tx : Type}
    (provider : Int → Option (Block Tx)) (extract : Tx → Option SignatureData)
    (startBlock endBlock maxBlocks : Int) (hse : endBlock < startBlock) :
    blockHeights startBlock endBlock maxBlocks = [] ∧
      analyzeBlockchainSignatures provider extract startBlock endBlock maxBlocks =
        emptyResult := by
  have hempty : blockHeights startBlock endBlock maxBlocks = [] := by
    unfold blockHeights
    have h0 : (min endBlock (startBlock + maxBlocks - 1) - startBlock + 1).toNat = 0 := by
      omega
    rw [h0]
    rfl
  refine ⟨hempty, ?_⟩
  unfold analyzeBlockchainSignatures
  rw [hempty]
  rfl

/-- Witness for C5: a concrete invalid range `start = 7 > 2 = end`. -/
theorem C5_witness :
    blockHeights 7 2 500 = [] ∧
      analyzeBlockchainSignatures (fun _ => none)
        (fun sig : SignatureData => some sig) 7 2 500 = emptyResult :=
  C5_invalid_range_amended (fun _ => none) (fun sig => some sig) 7 2 500 (by decide)

/-! ### C6: the DER signature parser -/

/-- Indexing past a prefix of known length. -/
lemma getElem?_append_right' {α : Type} (l₁ l₂ : List α) (n k : Nat)
    (h : l₁.length = n) (hk : n ≤ k) : (l₁ ++ l₂)[k]? = l₂[k - n]? := by
  subst h
  exact List.getElem?_append_right hk

lemma derShape_length (rB sB : List Nat) (hrlen : rB.length = 32)
    (hslen : sB.length = 32) : (derShape rB sB).length = 70 := by
  simp [derShape, hrlen, hslen]

lemma derShape_reads (rB sB : List Nat) (hrlen : rB.length = 32)
    (hslen : sB.length = 32) :
    (derShape rB sB)[0]? = some 0x30 ∧ (derShape rB sB)[2]? = some 0x02 ∧
    (derShape rB sB)[3]? = some 0x20 ∧ (derShape rB sB)[36]? = some 0x02 ∧
    (derShape rB sB)[37]? = some 0x20 ∧
    ((derShape rB sB).drop 4).take 32 = rB ∧
    ((derShape rB sB).drop 38).take 32 = sB := by
  unfold derShape
  rw [List.append_assoc]
  refine ⟨?_, ?_, ?_, ?_, ?_, ?_, ?_⟩
  · rw [List.getElem?_append_left (by norm_num)]
    decide
  · rw [List.getElem?_append_left (by norm_num)]
    decide
  · rw [List.getElem?_append_left (by norm_num)]
    decide
  · rw [getElem?_append_right' _ _ 4 36 (by norm_num) (by norm_num),
      getElem?_append_right' rB _ 32 32 hrlen (by norm_num)]
    rfl
  · rw [getElem?_append_right' _ _ 4 37 (by norm_num) (by norm_num),
      getElem?_append_right' rB _ 32 33 hrlen (by norm_num)]
    norm_num
  · rw [List.drop_left' (by norm_num), List.take_left' hrlen]
  · rw [show ([0x30, 0x44, 0x02, 0x20] : List Nat) ++ (rB ++ ([0x02, 0x20] ++ sB)) =
        (([0x30, 0x44, 0x02, 0x20] ++ rB) ++ [0x02, 0x20]) ++ sB by
      simp [List.append_assoc]]
    rw [List.drop_left' (by simp [hrlen]), ← hslen, List.take_length]

/-- C6, counterexample: the input `30 06 02 01 01 02 05 02` declares an
`s`-length of `5` with only one byte remaining; the source never checks the
declared length against the buffer (`slice` clamps), so the parse SUCCEEDS
with `(r, s) = (1, 2)` where the claim demands a decode failure. -/
theorem C6_counterexample :
    parseDERSignature [0x30, 0x06, 0x02, 0x01, 0x01, 0x02, 0x05, 0x02] =
      some (1, 2) := by
  decide

/-- Decoding the well-formed shape reproduces the encoded integers. -/
lemma parseDER_roundtrip (rB sB : List Nat) (hrlen : rB.length = 32)
    (hslen : sB.length = 32)
    (hr1 : 0 < bytesToBigInt rB) (hr2 : bytesToBigInt rB < curveOrderN)
    (hs1 : 0 < bytesToBigInt sB) (hs2 : bytesToBigInt sB < curveOrderN) :
    parseDERSignature (derShape rB sB) =
      some (bytesToBigInt rB, bytesToBigInt sB) := by
  have hlen := derShape_length rB sB hrlen hslen
  obtain ⟨hb0, hb2, hb3, hb36, hb37, hrBytes, hsBytes⟩ :=
    derShape_reads rB sB hrlen hslen
  simp only [parseDERSignature, hlen, hb0, hb2, hb3, hb36, hb37]
  norm_num
  simp only [hrBytes]
  norm_num [hb36, hb37]
  simp only [hsBytes]
  simp [hr1.ne', hs1.ne', hr2.not_le, hs2.not_le]
  exact ⟨hr2, hs2⟩

/-- A corrupted leading tag byte is rejected. -/
lemma parseDER_tag_corrupt (rB sB : List Nat) (hrlen : rB.length = 32)
    (hslen : sB.length = 32) (c : Nat) (hc : c ≠ 0x30) :
    parseDERSignature (c :: (derShape rB sB).drop 1) = none := by
  have h1 : (c :: (derShape rB sB).drop 1).length = 70 := by
    have := derShape_length rB sB hrlen hslen
    simp [this]
  have h0 : (c :: (derShape rB sB).drop 1)[0]? = some c := rfl
  simp only [parseDERSignature, h1, h0]
  norm_num [hc]

/-- Any truncation that ends before the `s` bytes begin is rejected. -/
lemma parseDER_truncated (rB sB : List Nat) (hrlen : rB.length = 32)
    (hslen : sB.length = 32) (L : Nat) (hL : L ≤ 38) :
    parseDERSignature ((derShape rB sB).take L) = none := by
  have hlen := derShape_length rB sB hrlen hslen
  obtain ⟨hb0, hb2, hb3, hb36, hb37, hrBytes, hsBytes⟩ :=
    derShape_reads rB sB hrlen hslen
  have htlen : ((derShape rB sB).take L).length = L := by
    rw [List.length_take, hlen]
    omega
  by_cases h6 : L < 6
  · simp only [parseDERSignature, htlen]
    rw [if_pos h6]
  · push_neg at h6
    have ht0 : ((derShape rB sB).take L)[0]? = some 0x30 := by
      rw [List.getElem?_take, if_pos (by omega)]; exact hb0
    have ht2 : ((derShape rB sB).take L)[2]? = some 0x02 := by
      rw [List.getElem?_take, if_pos (by omega)]; exact hb2
    have ht3 : ((derShape rB sB).take L)[3]? = some 0x20 := by
      rw [List.getElem?_take, if_pos (by omega)]; exact hb3
    by_cases h38 : L = 38
    · subst h38
      have ht36 : ((derShape rB sB).take 38)[36]? = some 0x02 := by
        rw [List.getElem?_take, if_pos (by omega)]; exact hb36
      have ht37 : ((derShape rB sB).take 38)[37]? = some 0x20 := by
        rw [List.getElem?_take, if_pos (by omega)]; exact hb37
      have hdrop : ((derShape rB sB).take 38).drop 38 = [] :=
        List.drop_eq_nil_of_le (by omega)
      simp only [parseDERSignature, htlen, ht0, ht2, ht3]
      norm_num [ht36, ht37, hdrop, bytesToBigInt]
    by_cases h37 : L = 37
    · subst h37
      have ht36 : ((derShape rB sB).take 37)[36]? = some 0x02 := by
        rw [List.getElem?_take, if_pos (by omega)]; exact hb36
      have ht37 : ((derShape rB sB).take 37)[37]? = none :=
        List.getElem?_eq_none (by omega)
      simp only [parseDERSignature, htlen, ht0, ht2, ht3]
      norm_num [ht36, ht37]
    · have ht36 : ((derShape rB sB).take L)[36]? = none :=
        List.getElem?_eq_none (by omega)
      simp only [parseDERSignature, htlen, ht0, ht2, ht3]
      norm_num [ht36]
      exact fun _ h => Option.noConfusion h

/-- An encoded integer that is zero or at least the curve order is
rejected. -/
lemma parseDER_range_reject (rB sB : List Nat) (hrlen : rB.length = 32)
    (hslen : sB.length = 32)
    (hbad : bytesToBigInt rB = 0 ∨ bytesToBigInt sB = 0 ∨
      curveOrderN ≤ bytesToBigInt rB ∨ curveOrderN ≤ bytesToBigInt sB) :
    parseDERSignature (derShape rB sB) = none := by
  have hlen := derShape_length rB sB hrlen hslen
  obtain ⟨hb0, hb2, hb3, hb36, hb37, hrBytes, hsBytes⟩ :=
    derShape_reads rB sB hrlen hslen
  simp only [parseDERSignature, hlen, hb0, hb2, hb3, hb36, hb37]
  norm_num
  simp only [hrBytes]
  simp only [hsBytes]
  rcases hbad with h | h | h | h <;> simp [h]

/-- A corrupted `r`-INTEGER tag (offset 2) is rejected. -/
lemma parseDER_rtag_corrupt (rB sB : List Nat) (hrlen : rB.length = 32)
    (hslen : sB.length = 32) (t : Nat) (ht : t ≠ 0x02) :
    parseDERSignature ([0x30, 0x44, t, 0x20] ++ rB ++ ([0x02, 0x20] ++ sB)) = none := by
  rw [List.append_assoc]
  have hlen : ([0x30, 0x44, t, 0x20] ++ (rB ++ ([0x02, 0x20] ++ sB))).length = 70 := by
    simp [hrlen, hslen]
  have hb0 : ([0x30, 0x44, t, 0x20] ++ (rB ++ ([0x02, 0x20] ++ sB)))[0]? = some 0x30 := by
    rw [List.getElem?_append_left (by norm_num)]
    rfl
  have hb2 : ([0x30, 0x44, t, 0x20] ++ (rB ++ ([0x02, 0x20] ++ sB)))[2]? = some t := by
    rw [List.getElem?_append_left (by norm_num)]
    rfl
  simp only [parseDERSignature, hlen, hb0, hb2]
  norm_num [ht]

/-- A corrupted `s`-INTEGER tag (offset 36) is rejected. -/
lemma parseDER_stag_corrupt (rB sB : List Nat) (hrlen : rB.length = 32)
    (hslen : sB.length = 32) (u : Nat) (hu : u ≠ 0x02) :
    parseDERSignature ([0x30, 0x44, 0x02, 0x20] ++ rB ++ ([u, 0x20] ++ sB)) = none := by
  rw [List.append_assoc]
  have hlen : ([0x30, 0x44, 0x02, 0x20] ++ (rB ++ ([u, 0x20] ++ sB))).length = 70 := by
    simp [hrlen, hslen]
  have hb0 : ([0x30, 0x44, 0x02, 0x20] ++ (rB ++ ([u, 0x20] ++ sB)))[0]? = some 0x30 := by
    rw [List.getElem?_append_left (by norm_num)]
    rfl
  have hb2 : ([0x30, 0x44, 0x02, 0x20] ++ (rB ++ ([u, 0x20] ++ sB)))[2]? = some 0x02 := by
    rw [List.getElem?_append_left (by norm_num)]
    rfl
  have hb3 : ([0x30, 0x44, 0x02, 0x20] ++ (rB ++ ([u, 0x20] ++ sB)))[3]? = some 0x20 := by
    rw [List.getElem?_append_left (by norm_num)]
    rfl
  simp only [parseDERSignature, hlen, hb0, hb2, hb3]
  norm_num
  intro hcontra
  have h36 : (rB ++ u :: 0x20 :: sB)[32]? = some u := by
    rw [getElem?_append_right' rB _ 32 32 hrlen (by norm_num)]
    rfl
  rw [h36] at hcontra
  exact absurd (Option.some.inj hcontra) hu

/-- C6, amended: decoding the well-formed byte shape
`30 44 02 20 <32 bytes r> 02 20 <32 bytes s>` with both integers in `(0, n)`
reproduces exactly the encoded `r` and `s`; a corrupted tag byte at any of
the three tag positions (the leading `0x30`, the `r`-INTEGER `0x02` at
offset 2, the `s`-INTEGER `0x02` at offset 36), any truncation ending before
the `s`-value bytes (length ≤ 38), and an encoded integer that is `0` or
`≥ n` each produce a decode failure, never a crash.  (Not amendable away: a
declared `s`-length exceeding the remaining buffer is clamped by `slice` and
can still succeed — see the counterexample.) -/
theorem C6_parseDER_amended (rB sB rB2 sB2 : List Nat) (c t u L : Nat)
    (hrlen : rB.length = 32) (hslen : sB.length = 32)
    (hr1 : 0 < bytesToBigInt rB) (hr2 : bytesToBigInt rB < curveOrderN)
    (hs1 : 0 < bytesToBigInt sB) (hs2 : bytesToBigInt sB < curveOrderN)
    (hc : c ≠ 0x30) (ht : t ≠ 0x02) (hu : u ≠ 0x02) (hL : L ≤ 38)
    (hrlen2 : rB2.length = 32) (hslen2 : sB2.length = 32)
    (hbad : bytesToBigInt rB2 = 0 ∨ bytesToBigInt sB2 = 0 ∨
      curveOrderN ≤ bytesToBigInt rB2 ∨ curveOrderN ≤ bytesToBigInt sB2) :
    parseDERSignature (derShape rB sB) =
      some (bytesToBigInt rB, bytesToBigInt sB) ∧
    parseDERSignature (c :: (derShape rB sB).drop 1) = none ∧
    parseDERSignature ([0x30, 0x44, t, 0x20] ++ rB ++ ([0x02, 0x20] ++ sB)) = none ∧
    parseDERSignature ([0x30, 0x44, 0x02, 0x20] ++ rB ++ ([u, 0x20] ++ sB)) = none ∧
    parseDERSignature ((derShape rB sB).take L) = none ∧
    parseDERSignature (derShape rB2 sB2) = none :=
  ⟨parseDER_roundtrip rB sB hrlen hslen hr1 hr2 hs1 hs2,
   parseDER_tag_corrupt rB sB hrlen hslen c hc,
   parseDER_rtag_corrupt rB sB hrlen hslen t ht,
   parseDER_stag_corrupt rB sB hrlen hslen u hu,
   parseDER_truncated rB sB hrlen hslen L hL,
   parseDER_range_reject rB2 sB2 hrlen2 hslen2 hbad⟩

/-- Witness for C6: concrete 32-byte big-endian encodings of `r = 1`,
`s = 2` (well-formed), a corrupt leading tag `0x31`, corrupt inner tags
`0x03` and `0x04`, truncation at 38 bytes (the largest failing length), and
an all-zero `r` for the range rejection. -/
theorem C6_witness :
    parseDERSignature (derShape (List.replicate 31 0 ++ [1]) (List.replicate 31 0 ++ [2])) =
      some (bytesToBigInt (List.replicate 31 0 ++ [1]),
        bytesToBigInt (List.replicate 31 0 ++ [2])) ∧
    parseDERSignature (0x31 ::
      (derShape (List.replicate 31 0 ++ [1]) (List.replicate 31 0 ++ [2])).drop 1) = none ∧
    parseDERSignature ([0x30, 0x44, 0x03, 0x20] ++ (List.replicate 31 0 ++ [1]) ++
      ([0x02, 0x20] ++ (List.replicate 31 0 ++ [2]))) = none ∧
    parseDERSignature ([0x30, 0x44, 0x02, 0x20] ++ (List.replicate 31 0 ++ [1]) ++
      ([0x04, 0x20] ++ (List.replicate 31 0 ++ [2]))) = none ∧
    parseDERSignature
      ((derShape (List.replicate 31 0 ++ [1]) (List.replicate 31 0 ++ [2])).take 38) = none ∧
    parseDERSignature (derShape (List.replicate 32 0) (List.replicate 31 0 ++ [2])) = none :=
  C6_parseDER_amended (List.replicate 31 0 ++ [1]) (List.replicate 31 0 ++ [2])
    (List.replicate 32 0) (List.replicate 31 0 ++ [2]) 0x31 0x03 0x04 38
    (by decide) (by decide) (by decide) (by decide) (by decide) (by decide)
    (by decide) (by decide) (by decide) (by decide) (by decide) (by decide)
    (Or.inl (by decide))

/-! ### C1: round-trip recovery of generated fixtures -/

lemma signWithNonce_r (privateKey : Int) (message : List Nat) (nonce : Int) :
    (signWithNonce privateKey message nonce).r = modulo nonce CURVE_ORDER := rfl

lemma signWithNonce_z (privateKey : Int) (message : List Nat) (nonce : Int) :
    (signWithNonce privateKey message nonce).messageHash = hashMessage message := rfl

lemma signWithNonce_s (privateKey : Int) (message : List Nat) (nonce : Int) :
    (signWithNonce privateKey message nonce).s =
      modulo (modInverse nonce CURVE_ORDER *
        (hashMessage message + modulo nonce CURVE_ORDER * privateKey)) CURVE_ORDER := rfl

/-- Value of `modInverse` at `1`. -/
lemma modInverse_one : modInverse 1 CURVE_ORDER = 1 := by
  simp [modInverse, modInverseLoop, CURVE_ORDER]

set_option maxRecDepth 100000 in
/-- C1, counterexample: at `a = 1`, `b = 0`, `k1 = 1` and the private key
`thePriv = n - z1` (a value in `[1, n)`), the generated fixture has `s1 = 0`,
so `recoverPrivateKey` stops with the invalid-components failure even though
the claim's only proviso — invertibility of `reduce(r2*s1 - a*r1*s2)` —
holds (an explicit inverse is exhibited). -/
theorem C1_counterexample :
    0 < thePriv ∧ thePriv < CURVE_ORDER ∧
    (∃ x : Int,
      modulo ((signWithNonce thePriv message2 (modulo (1 * 1 + 0) CURVE_ORDER)).r *
          (signWithNonce thePriv message1 1).s -
        1 * (signWithNonce thePriv message1 1).r *
          (signWithNonce thePriv message2 (modulo (1 * 1 + 0) CURVE_ORDER)).s) CURVE_ORDER * x
        ≡ 1 [ZMOD CURVE_ORDER]) ∧
    (recoverPrivateKey (generateVulnerableSignatures 1 0 thePriv 1).1 1 0).success = false := by
  have hm1 : modulo (1 * 1 + 0 : Int) CURVE_ORDER = 1 := by decide
  refine ⟨by decide, by decide,
    ⟨10021209497774933147896953473758780826537340007767735591592887279646833472719, ?_⟩, ?_⟩
  · rw [hm1]
    simp only [signWithNonce_r, signWithNonce_s]
    rw [modInverse_one]
    decide
  · have hlist : (generateVulnerableSignatures 1 0 thePriv 1).1 =
        [signWithNonce thePriv message1 1, signWithNonce thePriv message2 1] := by
      simp only [generateVulnerableSignatures, hm1]
    rw [hlist]
    simp only [recoverPrivateKey, signWithNonce_r, signWithNonce_s, signWithNonce_z]
    rw [modInverse_one]
    decide

/-- Transport an integer congruence mod the curve order into `ZMod`. -/
lemma modEq_to_zmod {x y : Int} (h : x ≡ y [ZMOD CURVE_ORDER]) :
    (x : ZMod curveOrderN) = y := by
  rw [curveOrder_cast] at h
  exact (ZMod.intCast_eq_intCast_iff x y curveOrderN).mpr h

/-- Transport a `ZMod` equality back to an integer congruence. -/
lemma zmod_to_modEq {x y : Int} (h : (x : ZMod curveOrderN) = y) :
    x ≡ y [ZMOD CURVE_ORDER] := by
  rw [curveOrder_cast]
  exact (ZMod.intCast_eq_intCast_iff x y curveOrderN).mp h

/-- A value with a modular inverse is non-zero. -/
lemma ne_zero_of_invertible {x : Int}
    (h : ∃ t, x * t ≡ 1 [ZMOD CURVE_ORDER]) : x ≠ 0 := by
  rintro rfl
  obtain ⟨t, ht⟩ := h
  have h0 : (0 : Int) ≡ 1 [ZMOD CURVE_ORDER] := by simpa using ht
  have h1 : (0 : Int) % CURVE_ORDER = 1 % CURVE_ORDER := h0
  norm_num [CURVE_ORDER] at h1

/-- C1, amended: for every `a`, `b`, private key in `[1, n)` and nonce draw
`k1` in `[0, n)`, if `k1` and `k2 = reduce(a*k1 + b)` are invertible mod `n`
(automatic in reality, since `n` is prime and the generator rejects neither),
if both generated `s` components are non-zero, and if the denominator
`reduce(r2*s1 - a*r1*s2)` is invertible mod `n`, then `recoverPrivateKey` on
the generated fixture succeeds and returns exactly the private key, the two
signatures used, and `(a, b)`. -/
theorem C1_roundtrip_amended (a b privateKey k1 : Int)
    (hp1 : 1 ≤ privateKey) (hp2 : privateKey < CURVE_ORDER)
    (hk1a : 0 ≤ k1) (hk1b : k1 < CURVE_ORDER)
    (hk1inv : ∃ x, k1 * x ≡ 1 [ZMOD CURVE_ORDER])
    (hk2inv : ∃ x, modulo (a * k1 + b) CURVE_ORDER * x ≡ 1 [ZMOD CURVE_ORDER])
    (hs1 : (signWithNonce privateKey message1 k1).s ≠ 0)
    (hs2 : (signWithNonce privateKey message2 (modulo (a * k1 + b) CURVE_ORDER)).s ≠ 0)
    (hden : ∃ x,
      modulo ((signWithNonce privateKey message2 (modulo (a * k1 + b) CURVE_ORDER)).r *
          (signWithNonce privateKey message1 k1).s -
          a * (signWithNonce privateKey message1 k1).r *
          (signWithNonce privateKey message2 (modulo (a * k1 + b) CURVE_ORDER)).s)
        CURVE_ORDER * x ≡ 1 [ZMOD CURVE_ORDER]) :
    recoverPrivateKey (generateVulnerableSignatures a b privateKey k1).1 a b =
      { success := true, recoveredPrivateKey := some privateKey,
        signaturesUsed := some [signWithNonce privateKey message1 k1,
          signWithNonce privateKey message2 (modulo (a * k1 + b) CURVE_ORDER)],
        affineParams := some (a, b) } := by
  have hpos := curveOrder_pos
  have hk2a : 0 ≤ modulo (a * k1 + b) CURVE_ORDER := modulo_nonneg _ _ hpos
  have hk2b : modulo (a * k1 + b) CURVE_ORDER < CURVE_ORDER := modulo_lt _ _ hpos
  have hr1 : (signWithNonce privateKey message1 k1).r = k1 := by
    rw [signWithNonce_r]; exact modulo_eq_self _ _ hk1a hk1b
  have hr2 : (signWithNonce privateKey message2 (modulo (a * k1 + b) CURVE_ORDER)).r =
      modulo (a * k1 + b) CURVE_ORDER := by
    rw [signWithNonce_r]; exact modulo_eq_self _ _ hk2a hk2b
  have hk1ne : k1 ≠ 0 := ne_zero_of_invertible hk1inv
  have hk2ne : modulo (a * k1 + b) CURVE_ORDER ≠ 0 := ne_zero_of_invertible hk2inv
  set z1 := hashMessage message1 with hz1
  set z2 := hashMessage message2 with hz2
  set k2 := modulo (a * k1 + b) CURVE_ORDER with hk2
  set i1 := modInverse k1 CURVE_ORDER with hi1
  set i2 := modInverse k2 CURVE_ORDER with hi2
  set s1 := (signWithNonce privateKey message1 k1).s with hs1e
  set s2 := (signWithNonce privateKey message2 k2).s with hs2e
  have hs1c : s1 ≡ i1 * (z1 + k1 * privateKey) [ZMOD CURVE_ORDER] := by
    rw [hs1e, signWithNonce_s, modulo_eq_self k1 CURVE_ORDER hk1a hk1b]
    exact modulo_modEq _ _ hpos
  have hs2c : s2 ≡ i2 * (z2 + k2 * privateKey) [ZMOD CURVE_ORDER] := by
    rw [hs2e, signWithNonce_s, modulo_eq_self k2 CURVE_ORDER hk2a hk2b]
    exact modulo_modEq _ _ hpos
  have hk1i : k1 * i1 ≡ 1 [ZMOD CURVE_ORDER] :=
    modInverse_mul_modEq k1 _ hk1a hpos hk1inv
  have hk2i : k2 * i2 ≡ 1 [ZMOD CURVE_ORDER] :=
    modInverse_mul_modEq k2 _ hk2a hpos hk2inv
  have hk2c : k2 ≡ a * k1 + b [ZMOD CURVE_ORDER] := modulo_modEq _ _ hpos
  rw [hr1, hr2] at hden
  set den := modulo (k2 * s1 - a * k1 * s2) CURVE_ORDER with hdene
  have hdena : 0 ≤ den := modulo_nonneg _ _ hpos
  have hdenc : den ≡ k2 * s1 - a * k1 * s2 [ZMOD CURVE_ORDER] := modulo_modEq _ _ hpos
  have hdenne : den ≠ 0 := ne_zero_of_invertible hden
  have hdinv : den * modInverse den CURVE_ORDER ≡ 1 [ZMOD CURVE_ORDER] :=
    modInverse_mul_modEq den _ hdena hpos hden
  set num := modulo (a * s2 * z1 - s1 * z2 + b * s1 * s2) CURVE_ORDER with hnume
  have hnumc : num ≡ a * s2 * z1 - s1 * z2 + b * s1 * s2 [ZMOD CURVE_ORDER] :=
    modulo_modEq _ _ hpos
  set recov := modulo (modInverse den CURVE_ORDER * num) CURVE_ORDER with hrece
  have hreca : 0 ≤ recov := modulo_nonneg _ _ hpos
  have hrecb : recov < CURVE_ORDER := modulo_lt _ _ hpos
  have hrecc : recov ≡ modInverse den CURVE_ORDER * num [ZMOD CURVE_ORDER] :=
    modulo_modEq _ _ hpos
  have e1 := modEq_to_zmod hs1c
  push_cast at e1
  have e2 := modEq_to_zmod hs2c
  push_cast at e2
  have ei1 := modEq_to_zmod hk1i
  push_cast at ei1
  have ei2 := modEq_to_zmod hk2i
  push_cast at ei2
  have ek2 := modEq_to_zmod hk2c
  push_cast at ek2
  have eden := modEq_to_zmod hdenc
  push_cast at eden
  have edinv := modEq_to_zmod hdinv
  push_cast at edinv
  have enum := modEq_to_zmod hnumc
  push_cast at enum
  have erec := modEq_to_zmod hrecc
  push_cast at erec
  have h1 : (s1 : ZMod curveOrderN) * k1 = z1 + k1 * privateKey := by
    linear_combination (k1 : ZMod curveOrderN) * e1 +
      ((z1 : ZMod curveOrderN) + (k1 : ZMod curveOrderN) * privateKey) * ei1
  have h2 : (s2 : ZMod curveOrderN) * k2 = z2 + k2 * privateKey := by
    linear_combination (k2 : ZMod curveOrderN) * e2 +
      ((z2 : ZMod curveOrderN) + (k2 : ZMod curveOrderN) * privateKey) * ei2
  have hDP : (den : ZMod curveOrderN) * privateKey = num := by
    linear_combination (privateKey : ZMod curveOrderN) * eden - enum +
      (a : ZMod curveOrderN) * (s2 : ZMod curveOrderN) * h1 -
      (s1 : ZMod curveOrderN) * h2 +
      (s1 : ZMod curveOrderN) * (s2 : ZMod curveOrderN) * ek2
  have hfin : (recov : ZMod curveOrderN) = privateKey := by
    linear_combination erec -
      ((modInverse den CURVE_ORDER : Int) : ZMod curveOrderN) * hDP +
      (privateKey : ZMod curveOrderN) * edinv
  have hrecP : recov ≡ privateKey [ZMOD CURVE_ORDER] := zmod_to_modEq hfin
  have hreceq : recov = privateKey :=
    eq_of_modEq_of_lt hrecP hreca hrecb (by omega) hp2
  have hrecne : recov ≠ 0 := by rw [hreceq]; omega
  have hcomp : ¬((signWithNonce privateKey message1 k1).r = 0 ∨ s1 = 0 ∨
      (signWithNonce privateKey message2 k2).r = 0 ∨ s2 = 0) := by
    push_neg
    exact ⟨by rw [hr1]; exact hk1ne, hs1, by rw [hr2]; exact hk2ne, hs2⟩
  show recoverPrivateKey
      [signWithNonce privateKey message1 k1, signWithNonce privateKey message2 k2] a b = _
  simp only [recoverPrivateKey]
  rw [if_neg hcomp, hr1, hr2, signWithNonce_z, signWithNonce_z]
  rw [← hs1e, ← hs2e, ← hz1, ← hz2, ← hdene, ← hnume]
  rw [if_neg hdenne, ← hrece, if_neg hrecne, hreceq]

/-- Value of `modInverse` at `2`. -/
lemma modInverse_two :
    modInverse 2 CURVE_ORDER =
      57896044618658097711785492504343953926418782139537452191302581570759080747169 := by
  simp [modInverse, modInverseLoop, CURVE_ORDER]

set_option maxRecDepth 100000 in
/-- Witness for C1: `a = 1`, `b = 1`, private key `1`, nonce `k1 = 1`
(`k2 = 2`); every hypothesis is discharged concretely and recovery returns
the key `1`. -/
theorem C1_witness :
    recoverPrivateKey (generateVulnerableSignatures 1 1 1 1).1 1 1 =
      { success := true, recoveredPrivateKey := some 1,
        signaturesUsed := some [signWithNonce 1 message1 1,
          signWithNonce 1 message2 (modulo (1 * 1 + 1) CURVE_ORDER)],
        affineParams := some (1, 1) } := by
  have hm2 : modulo (1 * 1 + 1 : Int) CURVE_ORDER = 2 := by decide
  refine C1_roundtrip_amended 1 1 1 1 (by decide) (by decide) (by decide) (by decide)
    ⟨1, by decide⟩
    ⟨57896044618658097711785492504343953926418782139537452191302581570759080747169, ?_⟩
    ?_ ?_ ?_
  · rw [hm2]
    decide
  · simp only [signWithNonce_s]
    rw [modInverse_one]
    decide
  · simp only [signWithNonce_s, hm2]
    rw [modInverse_two]
    decide
  · refine ⟨110916806126945593954347882856563137623504084402840449478130438518353738539289, ?_⟩
    simp only [signWithNonce_r, signWithNonce_s, hm2]
    rw [modInverse_one, modInverse_two]
    decide
